import Mathlib

/-!
Verification of `cvox.Focuser.setFocus` (src/chromevox/common/focuser.js).

The DOM is modelled as a rose tree of element data; a node is identified by
its path from the tree root (list of child indices).  The tree root plays the
role of the document body: the parent of the root is `null`, and a blur of the
active element returns focus to the root, as in a browser.  The external
collaborators `cvox.DomUtil` and `cvox.ChromeVoxEventSuspender` are not part
of the source fragment; their behaviour is modelled from the spec where the
claims depend on it (`isDescendantOfNode`, `isFocusable`,
`findFocusableDescendant`, `isInputTypeText`), and the suspender is observed
only through the trace of `enterSuspendEvents` / `exitSuspendEvents` calls
that `setFocus` emits, plus the boolean `areEventsSuspended` read at call
time.

`setFocus` is embedded as a pure function from a `DomState` to a
`SetFocusResult` recording, in source order, the primitive DOM calls performed
synchronously and the body of the single callback scheduled with
`window.setTimeout`.
-/

namespace Focuser

/-- An opaque identifier for a DOM selection `Range` object. -/
abbrev SelRange := Nat

/-- The data carried by one DOM element.  `isVideo` models
`node.constructor == HTMLVideoElement`; `nativelyFocusable` models the
platform rules of `cvox.DomUtil.isFocusable` other than an explicit
`tabIndex` attribute; `isTextInput` models `cvox.DomUtil.isInputTypeText`. -/
structure NodeData where
  tag : String
  isVideo : Bool
  attrs : List (String × String)
  nativelyFocusable : Bool
  isTextInput : Bool
  deriving DecidableEq, Repr

/-- A DOM subtree: element data plus the ordered list of child subtrees. -/
inductive DomTree : Type where
  | mk : NodeData → List DomTree → DomTree

/-- The element data at the root of a subtree. -/
def DomTree.data : DomTree → NodeData
  | .mk d _ => d

/-- The child subtrees of the root of a subtree. -/
def DomTree.children : DomTree → List DomTree
  | .mk _ cs => cs

/-- Look an attribute up in an attribute list (`node.getAttribute`). -/
def lookupAttr : List (String × String) → String → Option String
  | [], _ => none
  | (k, v) :: rest, key => if k = key then some v else lookupAttr rest key

/-- Set an attribute in an attribute list (`node.setAttribute`): replace the
first binding of the key, or append a new one. -/
def setAttrList : List (String × String) → String → String → List (String × String)
  | [], key, val => [(key, val)]
  | (k, v) :: rest, key, val =>
    if k = key then (key, val) :: rest else (k, v) :: setAttrList rest key val

/-- Update one attribute of the element data. -/
def setAttrData (d : NodeData) (key val : String) : NodeData :=
  { d with attrs := setAttrList d.attrs key val }

/-- Modelled from the spec (`cvox.DomUtil.isFocusable` is not in the source
fragment): a node can receive focus when it is natively focusable per
platform rules or carries an explicit `tabIndex` attribute. -/
def isFocusable (d : NodeData) : Bool :=
  d.nativelyFocusable || (lookupAttr d.attrs "tabIndex").isSome

/-- The subtree at a path (child-index list) below `t`, if the path is
valid. -/
def getNode : DomTree → List Nat → Option DomTree
  | t, [] => some t
  | .mk _ cs, i :: p =>
    match cs[i]? with
    | some c => getNode c p
    | none => none

/-- Rebuild the tree with one attribute of the node at `path` updated;
an invalid path leaves the tree unchanged. -/
def setAttrTree : DomTree → List Nat → String → String → DomTree
  | .mk d cs, [], key, val => .mk (setAttrData d key val) cs
  | .mk d cs, i :: p, key, val =>
    match cs[i]? with
    | some c => .mk d (cs.set i (setAttrTree c p key val))
    | none => .mk d cs

/-- Whether the (possibly null) node at a path is focusable;
`cvox.DomUtil.isFocusable` returns false on `null`, and an invalid path is
treated likewise. -/
def isFocusableAt (root : DomTree) : Option (List Nat) → Bool
  | some p =>
    match getNode root p with
    | some t => isFocusable t.data
    | none => false
  | none => false

/-- The tag name of the node at a path, if the path is valid. -/
def tagAt (root : DomTree) (p : List Nat) : Option String :=
  (getNode root p).map (fun t => t.data.tag)

/-- Whether the (possibly null) node at a path is a text-input-like element;
`cvox.DomUtil.isInputTypeText` returns false on `null`. -/
def isInputTypeTextAt (root : DomTree) : Option (List Nat) → Bool
  | some p =>
    match getNode root p with
    | some t => t.data.isTextInput
    | none => false
  | none => false

/-- Boolean path-prefix test: in the path model of the DOM, the node at `a`
is an ancestor-or-self of the node at `b` exactly when `a` is a prefix of
`b`. -/
def pathIsPrefix : List Nat → List Nat → Bool
  | [], _ => true
  | _ :: _, [] => false
  | a :: as, b :: bs => if a = b then pathIsPrefix as bs else false

/-- Modelled from the spec (`cvox.DomUtil.isDescendantOfNode` is not in the
source fragment): whether `node` is a descendant of, or the same node as,
the node at `ancestor`; false when `node` is null. -/
def isDescendantOfNode (node : Option (List Nat)) (ancestor : List Nat) : Bool :=
  match node with
  | some p => pathIsPrefix ancestor p
  | none => false

/-- One primitive DOM / suspender call performed by `setFocus`, in the order
it appears in the trace. -/
inductive Action : Type where
  | blur (p : List Nat)
  | setAttr (p : List Nat) (key val : String)
  | enterSuspendEvents
  | exitSuspendEvents
  | focus (p : List Nat)
  | selectAllText (p : List Nat)
  | removeAllRanges
  | addRange (r : SelRange)
  deriving DecidableEq, Repr

/-- The window selection after the synchronous part of the call: either a
list of ranges, or the whole text of a text input selected by
`targetNode.select()`. -/
inductive SelState : Type where
  | ranges (rs : List SelRange)
  | allTextOf (p : List Nat)
  deriving DecidableEq, Repr

/-- The browser state read by `setFocus`: the document tree (rooted at the
body), `document.activeElement` as a path (or none), the selection's ranges,
and `cvox.ChromeVoxEventSuspender.areEventsSuspended()`. -/
structure DomState where
  root : DomTree
  activePath : Option (List Nat)
  sel : List SelRange
  suspended : Bool

/-- The observable outcome of one `setFocus` call: the synchronous actions of
each source block in order, the resolved focus target (the final value of the
local `targetNode`), the body of the scheduled `setTimeout` callback (empty
when none is scheduled), and the document / active-element / selection state
when the synchronous part returns.  `finalActive` does not account for the
deferred `focus` call, which runs on a later event-loop turn. -/
structure SetFocusResult where
  initialBlur : List Action
  videoFix : List Action
  resolved : Option (List Nat)
  focusPart : List Action
  deferred : List Action
  selRestore : List Action
  finalRoot : DomTree
  finalActive : Option (List Nat)
  finalSel : SelState

/-- All synchronous actions of the call, in source order. -/
def SetFocusResult.syncTrace (r : SetFocusResult) : List Action :=
  r.initialBlur ++ r.videoFix ++ r.focusPart ++ r.selRestore

/-- Source lines 43-47: blur the currently-focused element when the target
node is not a descendant of it. -/
def initialBlurActs (active : Option (List Nat)) (tp : Option (List Nat)) : List Action :=
  match active with
  | some ap => if isDescendantOfNode tp ap then [] else [Action.blur ap]
  | none => []

/-- `document.activeElement` after the initial-blur step: blurring an element
returns focus to the document body, i.e. to the tree root `[]`. -/
def activeAfterBlur (active : Option (List Nat)) (tp : Option (List Nat)) : Option (List Nat) :=
  match active with
  | some ap => if isDescendantOfNode tp ap then some ap else some []
  | none => none

/-- Source lines 49-54: a video element that is not focusable is given
`tabIndex = 0`.  Returns the emitted actions and the updated tree. -/
def videoFixOf (root : DomTree) (tp : Option (List Nat)) : List Action × DomTree :=
  match tp with
  | some p =>
    match getNode root p with
    | some t =>
      if t.data.isVideo && !isFocusable t.data then
        ([Action.setAttr p "tabIndex" "0"], setAttrTree root p "tabIndex" "0")
      else ([], root)
    | none => ([], root)
  | none => ([], root)

/-- Modelled from the spec (`cvox.DomUtil.findFocusableDescendant` is not in
the source fragment): pre-order search of a forest for the first focusable
node, returning its path relative to the forest; `i` is the child index of
the first tree of `ts` within its parent. -/
def firstFocusableForest : List DomTree → Nat → Option (List Nat)
  | [], _ => none
  | DomTree.mk d cs :: rest, i =>
    if isFocusable d then some [i]
    else
      match firstFocusableForest cs 0 with
      | some q => some (i :: q)
      | none => firstFocusableForest rest (i + 1)

/-- Modelled from the spec: the first focusable descendant of the (possibly
null) node at `tp`, in pre-order, as an absolute path; `none` when there is
no such descendant or the node is null. -/
def findFocusableDescendantAt (root : DomTree) : Option (List Nat) → Option (List Nat)
  | some p =>
    match getNode root p with
    | some t => (firstFocusableForest t.children 0).map (fun q => p ++ q)
    | none => none
  | none => none

/-- Source lines 62-66: the `while` loop walking up the parent chain from the
node at `p` until a focusable node is found; the parent of the root is null,
so an exhausted chain yields `none`. -/
def ancestorWalk (root : DomTree) (p : List Nat) : Option (List Nat) :=
  if isFocusableAt root (some p) then some p
  else
    match p with
    | [] => none
    | a :: rest => ancestorWalk root ((a :: rest).dropLast)
termination_by p.length
decreasing_by simp [List.length_dropLast]

/-- The ancestor walk lifted to a possibly-null target, as in the source
`while (targetNode && ...)` guard. -/
def resolveByAncestors (root : DomTree) : Option (List Nat) → Option (List Nat)
  | some p => ancestorWalk root p
  | none => none

/-- Source lines 56-66: resolution of the actual focus target, the value the
local variable `targetNode` holds after the `if`/`else`.  In the descendant
branch a failed search leaves `targetNode` unchanged. -/
def resolveTarget (root : DomTree) (tp : Option (List Nat)) (focusDescendants : Bool) :
    Option (List Nat) :=
  if focusDescendants && !isFocusableAt root tp then
    match findFocusableDescendantAt root tp with
    | some d => some d
    | none => tp
  else resolveByAncestors root tp

/-- Source lines 94-97: the no-focusable-node branch; blur the element that
currently has focus unless it is the document body.  Returns the emitted
actions and the resulting `document.activeElement`. -/
def blurStep (active : Option (List Nat)) (root : DomTree) :
    List Action × Option (List Nat) :=
  match active with
  | some ap =>
    if tagAt root ap ≠ some "BODY" then ([Action.blur ap], some [])
    else ([], some ap)
  | none => ([], none)

/-- Source lines 117-125, `cvox.Focuser.shouldEnterSuspendEvents_`: false for
a video element or an element whose `type` attribute equals `"time"`. -/
def shouldEnterSuspendEvents_ (d : NodeData) : Bool :=
  if d.isVideo then false
  else if lookupAttr d.attrs "type" = some "time" then false
  else true

/-- Source lines 69-97: focus the resolved node when it is focusable and not
an iframe (deciding the suspension toggling), otherwise the blur branch.
Returns the synchronous actions, the scheduled callback body, and the
resulting `document.activeElement`. -/
def focusStep (suspended : Bool) (active : Option (List Nat)) (root : DomTree)
    (resolved : Option (List Nat)) : List Action × List Action × Option (List Nat) :=
  match resolved with
  | some p =>
    match getNode root p with
    | some t =>
      if isFocusable t.data then
        if t.data.tag ≠ "IFRAME" then
          if suspended then
            (if shouldEnterSuspendEvents_ t.data then [Action.enterSuspendEvents] else [],
             [Action.focus p, Action.exitSuspendEvents], active)
          else ([], [Action.focus p], active)
        else ([], [], active)
      else
        let b := blurStep active root
        (b.1, [], b.2)
    | none =>
      let b := blurStep active root
      (b.1, [], b.2)
  | none =>
    let b := blurStep active root
    (b.1, [], b.2)

/-- Source lines 102-105: clear the selection and re-add the captured range,
when one was captured. -/
def restoreRange (range : Option SelRange) (cur : List SelRange) :
    List Action × SelState :=
  match range with
  | some r => ([Action.removeAllRanges, Action.addRange r], SelState.ranges [r])
  | none => ([], SelState.ranges cur)

/-- Source lines 99-105: select the whole text of a text-input target,
otherwise restore the captured range. -/
def selRestoreStep (root : DomTree) (resolved : Option (List Nat))
    (range : Option SelRange) (cur : List SelRange) : List Action × SelState :=
  match resolved with
  | some p =>
    match getNode root p with
    | some t =>
      if t.data.isTextInput then ([Action.selectAllText p], SelState.allTextOf p)
      else restoreRange range cur
    | none => restoreRange range cur
  | none => restoreRange range cur

/-- Source lines 36-106, `cvox.Focuser.setFocus`: the whole call, assembled
from the per-block functions above in source order.  `tp` is the path of the
`targetNode` argument (or `none` for `null`), `focusDescendants` the
`opt_focusDescendants` argument. -/
def setFocus (st : DomState) (tp : Option (List Nat)) (focusDescendants : Bool) :
    SetFocusResult :=
  let range := st.sel.head?
  let blur1 := initialBlurActs st.activePath tp
  let active1 := activeAfterBlur st.activePath tp
  let fix := videoFixOf st.root tp
  let root1 := fix.2
  let resolved := resolveTarget root1 tp focusDescendants
  let f5 := focusStep st.suspended active1 root1 resolved
  let sr := selRestoreStep root1 resolved range st.sel
  { initialBlur := blur1
    videoFix := fix.1
    resolved := resolved
    focusPart := f5.1
    deferred := f5.2.1
    selRestore := sr.1
    finalRoot := root1
    finalActive := f5.2.2
    finalSel := sr.2 }

/-! Concrete example documents used to exercise the theorems below. -/

/-- Element data for a plain, non-focusable element with the given tag. -/
def plainData (tag : String) : NodeData :=
  { tag := tag, isVideo := false, attrs := [], nativelyFocusable := false,
    isTextInput := false }

/-- A video element with no `tabIndex` attribute. -/
def exVideoData : NodeData := { plainData "VIDEO" with isVideo := true }

/-- A natively focusable button. -/
def exButtonData : NodeData := { plainData "BUTTON" with nativelyFocusable := true }

/-- A focusable iframe. -/
def exIframeData : NodeData := { plainData "IFRAME" with nativelyFocusable := true }

/-- A focusable text input. -/
def exInputData : NodeData :=
  { plainData "INPUT" with nativelyFocusable := true, isTextInput := true }

/-- A focusable input with `type="time"`. -/
def exTimeData : NodeData :=
  { plainData "INPUT" with nativelyFocusable := true, attrs := [("type", "time")] }

/-- A div made focusable by an explicit `tabIndex` attribute. -/
def exTabDivData : NodeData := { plainData "DIV" with attrs := [("tabIndex", "0")] }

/-- A sample document: a body with a video at `[0]`, a div at `[1]` holding a
span and a button, an iframe at `[2]`, a text input at `[3]`, a focusable div
at `[4]` holding only non-focusable nodes, and a `type="time"` input at
`[5]`. -/
def exRoot : DomTree :=
  .mk (plainData "BODY")
    [ .mk exVideoData []
    , .mk (plainData "DIV") [.mk (plainData "SPAN") [], .mk exButtonData []]
    , .mk exIframeData []
    , .mk exInputData []
    , .mk exTabDivData [.mk (plainData "DIV") [.mk (plainData "SPAN") []]]
    , .mk exTimeData [] ]

/-- The sample document with nothing focused, no selection, events not
suspended. -/
def exStBase : DomState :=
  { root := exRoot, activePath := none, sel := [], suspended := false }

/-- The sample document with events suspended. -/
def exStSusp : DomState :=
  { root := exRoot, activePath := none, sel := [], suspended := true }

/-- The sample document with the div at `[1]` holding focus. -/
def exStActive : DomState :=
  { root := exRoot, activePath := some [1], sel := [], suspended := false }

/-- The sample document with one selection range. -/
def exStSel : DomState :=
  { root := exRoot, activePath := none, sel := [5], suspended := false }

/-! Projection lemmas: each field of `setFocus` in terms of the per-block
functions. -/

/-- The initial-blur actions of a call. -/
theorem setFocus_initialBlur (st : DomState) (tp : Option (List Nat)) (fd : Bool) :
    (setFocus st tp fd).initialBlur = initialBlurActs st.activePath tp := rfl

/-- The video-fix actions of a call. -/
theorem setFocus_videoFix (st : DomState) (tp : Option (List Nat)) (fd : Bool) :
    (setFocus st tp fd).videoFix = (videoFixOf st.root tp).1 := rfl

/-- The document tree after the synchronous part of a call. -/
theorem setFocus_finalRoot (st : DomState) (tp : Option (List Nat)) (fd : Bool) :
    (setFocus st tp fd).finalRoot = (videoFixOf st.root tp).2 := rfl

/-- The resolved focus target of a call. -/
theorem setFocus_resolved (st : DomState) (tp : Option (List Nat)) (fd : Bool) :
    (setFocus st tp fd).resolved =
      resolveTarget (setFocus st tp fd).finalRoot tp fd := rfl

/-- The synchronous actions of the focus/blur block of a call. -/
theorem setFocus_focusPart (st : DomState) (tp : Option (List Nat)) (fd : Bool) :
    (setFocus st tp fd).focusPart =
      (focusStep st.suspended (activeAfterBlur st.activePath tp)
        (setFocus st tp fd).finalRoot (setFocus st tp fd).resolved).1 := rfl

/-- The scheduled callback body of a call. -/
theorem setFocus_deferred (st : DomState) (tp : Option (List Nat)) (fd : Bool) :
    (setFocus st tp fd).deferred =
      (focusStep st.suspended (activeAfterBlur st.activePath tp)
        (setFocus st tp fd).finalRoot (setFocus st tp fd).resolved).2.1 := rfl

/-- The selection-restore actions of a call. -/
theorem setFocus_selRestore (st : DomState) (tp : Option (List Nat)) (fd : Bool) :
    (setFocus st tp fd).selRestore =
      (selRestoreStep (setFocus st tp fd).finalRoot (setFocus st tp fd).resolved
        st.sel.head? st.sel).1 := rfl

/-- The selection after the synchronous part of a call. -/
theorem setFocus_finalSel (st : DomState) (tp : Option (List Nat)) (fd : Bool) :
    (setFocus st tp fd).finalSel =
      (selRestoreStep (setFocus st tp fd).finalRoot (setFocus st tp fd).resolved
        st.sel.head? st.sel).2 := rfl

/-! Shape lemmas: which kinds of actions each block can emit. -/

/-- The initial-blur block emits only `blur` actions. -/
theorem mem_initialBlurActs {a : Action} {act tp : Option (List Nat)}
    (h : a ∈ initialBlurActs act tp) : ∃ p, a = Action.blur p := by
  unfold initialBlurActs at h
  cases act with
  | none => simp at h
  | some ap =>
    by_cases hd : isDescendantOfNode tp ap = true
    · simp [hd] at h
    · simp [hd] at h
      exact ⟨ap, h⟩

/-- The video-fix block emits only `setAttr` actions. -/
theorem mem_videoFixOf {a : Action} {root : DomTree} {tp : Option (List Nat)}
    (h : a ∈ (videoFixOf root tp).1) : ∃ p, a = Action.setAttr p "tabIndex" "0" := by
  unfold videoFixOf at h
  repeat' split at h
  all_goals simp at h
  all_goals exact ⟨_, h⟩

/-- The blur branch emits only `blur` actions. -/
theorem mem_blurStep {a : Action} {act : Option (List Nat)} {root : DomTree}
    (h : a ∈ (blurStep act root).1) : ∃ p, a = Action.blur p := by
  unfold blurStep at h
  cases act with
  | none => simp at h
  | some ap =>
    by_cases hb : tagAt root ap = some "BODY"
    · simp [hb] at h
    · simp [hb] at h
      exact ⟨ap, h⟩

/-- The selection-restore block emits only selection actions. -/
theorem mem_selRestoreStep {a : Action} {root : DomTree} {res : Option (List Nat)}
    {rg : Option SelRange} {cur : List SelRange}
    (h : a ∈ (selRestoreStep root res rg cur).1) :
    a = Action.removeAllRanges ∨ (∃ r, a = Action.addRange r) ∨
      ∃ p, a = Action.selectAllText p := by
  unfold selRestoreStep restoreRange at h
  repeat' split at h
  all_goals simp at h
  · exact Or.inr (Or.inr ⟨_, h⟩)
  all_goals rcases h with h | h
  all_goals first
    | exact Or.inl h
    | exact Or.inr (Or.inl ⟨_, h⟩)

/-! Case lemmas for the focus/blur block. -/

/-- When the resolved node is not focusable (in particular when it is null),
the focus/blur block takes the blur branch and schedules nothing. -/
theorem focusStep_notFocusable {susp : Bool} {active : Option (List Nat)}
    {root : DomTree} {resolved : Option (List Nat)}
    (h : isFocusableAt root resolved = false) :
    focusStep susp active root resolved =
      ((blurStep active root).1, [], (blurStep active root).2) := by
  unfold focusStep
  cases resolved with
  | none => rfl
  | some p =>
    cases hg : getNode root p with
    | none => simp [hg]
    | some t =>
      have hf : isFocusable t.data = false := by simpa [isFocusableAt, hg] using h
      simp [hg, hf]

/-- The suspended case for a focusable, non-iframe resolved node: enter
suspension when the exclusion rule allows it, and schedule the focus call
followed by `exitSuspendEvents`. -/
theorem focusStep_suspended (active : Option (List Nat)) {root : DomTree}
    {p : List Nat} {t : DomTree} (ht : getNode root p = some t)
    (hf : isFocusable t.data = true) (hni : t.data.tag ≠ "IFRAME") :
    focusStep true active root (some p) =
      ((if shouldEnterSuspendEvents_ t.data then [Action.enterSuspendEvents] else []),
       [Action.focus p, Action.exitSuspendEvents], active) := by
  simp [focusStep, ht, hf, hni]

/-- The non-suspended case for a focusable, non-iframe resolved node: just
schedule the focus call. -/
theorem focusStep_notSuspended (active : Option (List Nat)) {root : DomTree}
    {p : List Nat} {t : DomTree} (ht : getNode root p = some t)
    (hf : isFocusable t.data = true) (hni : t.data.tag ≠ "IFRAME") :
    focusStep false active root (some p) = ([], [Action.focus p], active) := by
  simp [focusStep, ht, hf, hni]

/-- A focusable iframe target: nothing is emitted and nothing is
scheduled. -/
theorem focusStep_iframe (susp : Bool) (active : Option (List Nat)) {root : DomTree}
    {p : List Nat} {t : DomTree} (ht : getNode root p = some t)
    (hf : isFocusable t.data = true) (hifr : t.data.tag = "IFRAME") :
    focusStep susp active root (some p) = ([], [], active) := by
  simp [focusStep, ht, hf, hifr]

/-! Facts about the path-prefix order, i.e. the ancestor relation of the
path model. -/

/-- Every path is a prefix of itself. -/
theorem pathIsPrefix_refl : ∀ p : List Nat, pathIsPrefix p p = true
  | [] => rfl
  | _ :: as => by simp [pathIsPrefix, pathIsPrefix_refl as]

/-- The empty path (the tree root) is a prefix of every path. -/
theorem pathIsPrefix_nil (p : List Nat) : pathIsPrefix [] p = true := by
  cases p <;> rfl

/-- Only the empty path is a prefix of the empty path. -/
theorem pathIsPrefix_nil_right : ∀ {r : List Nat}, pathIsPrefix r [] = true → r = []
  | [], _ => rfl
  | _ :: _, h => by simp [pathIsPrefix] at h

/-- Prefix order is transitive. -/
theorem pathIsPrefix_trans : ∀ {a b c : List Nat},
    pathIsPrefix a b = true → pathIsPrefix b c = true → pathIsPrefix a c = true
  | [], _, _, _, _ => by simp [pathIsPrefix_nil]
  | _ :: _, [], _, hab, _ => by simp [pathIsPrefix] at hab
  | _ :: _, _ :: _, [], _, hbc => by simp [pathIsPrefix] at hbc
  | a :: as, b :: bs, c :: cs, hab, hbc => by
    simp [pathIsPrefix] at hab hbc ⊢
    rcases hab with ⟨hab1, hab2⟩
    rcases hbc with ⟨hbc1, hbc2⟩
    exact ⟨hab1.trans hbc1, pathIsPrefix_trans hab2 hbc2⟩

/-- Prefix order is antisymmetric. -/
theorem pathIsPrefix_antisymm : ∀ {a b : List Nat},
    pathIsPrefix a b = true → pathIsPrefix b a = true → a = b
  | [], [], _, _ => rfl
  | [], _ :: _, _, hba => by simp [pathIsPrefix] at hba
  | _ :: _, [], hab, _ => by simp [pathIsPrefix] at hab
  | a :: as, b :: bs, hab, hba => by
    simp [pathIsPrefix] at hab hba
    rcases hab with ⟨hab1, hab2⟩
    rcases hba with ⟨_, hba2⟩
    simp [hab1, pathIsPrefix_antisymm hab2 hba2]

/-- A path is a prefix of any extension of itself. -/
theorem pathIsPrefix_append : ∀ (p d : List Nat), pathIsPrefix p (p ++ d) = true
  | [], d => pathIsPrefix_nil d
  | a :: as, d => by simp [pathIsPrefix, pathIsPrefix_append as d]

/-- A proper extension of a path is never a prefix of it: a strict descendant
is not an ancestor. -/
theorem pathIsPrefix_append_ne : ∀ (p : List Nat) {d : List Nat}, d ≠ [] →
    pathIsPrefix (p ++ d) p = false
  | [], [], hd => absurd rfl hd
  | [], _ :: _, _ => rfl
  | a :: as, d, hd => by simp [pathIsPrefix, pathIsPrefix_append_ne as hd]

/-- The parent of a node is an ancestor of it. -/
theorem pathIsPrefix_dropLast : ∀ p : List Nat, pathIsPrefix p.dropLast p = true
  | [] => rfl
  | [_] => rfl
  | a :: b :: rest => by
    simp only [List.dropLast]
    simp [pathIsPrefix, pathIsPrefix_dropLast (b :: rest)]

/-- An ancestor-or-self of a node is the node itself or an ancestor-or-self
of its parent. -/
theorem pathIsPrefix_dropLast_or : ∀ {r p : List Nat}, pathIsPrefix r p = true →
    r = p ∨ pathIsPrefix r p.dropLast = true
  | [], [], _ => Or.inl rfl
  | [], _ :: _, _ => Or.inr (pathIsPrefix_nil _)
  | _ :: _, [], h => by simp [pathIsPrefix] at h
  | a :: as, b :: bs, h => by
    simp [pathIsPrefix] at h
    rcases h with ⟨hab, h⟩
    subst hab
    rcases pathIsPrefix_dropLast_or h with heq | hpre
    · exact Or.inl (by rw [heq])
    · cases bs with
      | nil =>
        have : as = [] := pathIsPrefix_nil_right h
        exact Or.inl (by rw [this])
      | cons c cs =>
        right
        simp only [List.dropLast]
        simp [pathIsPrefix, hpre]

/-- When the ancestor walk finds a node, that node is an ancestor-or-self of
the start node, it is focusable, and every node strictly between it and the
start node (along the ancestor chain) is not focusable: the walk stops at the
first focusable node. -/
theorem ancestorWalk_eq_some {root : DomTree} {p q : List Nat}
    (h : ancestorWalk root p = some q) :
    pathIsPrefix q p = true ∧ isFocusableAt root (some q) = true ∧
      ∀ r, pathIsPrefix q r = true → pathIsPrefix r p = true → r ≠ q →
        isFocusableAt root (some r) = false := by
  induction p using ancestorWalk.induct root with
  | case1 x hx =>
    unfold ancestorWalk at h
    rw [if_pos hx] at h
    obtain rfl : x = q := by exact Option.some.inj h
    refine ⟨pathIsPrefix_refl x, hx, ?_⟩
    intro r hqr hrq hne
    exact absurd (pathIsPrefix_antisymm hrq hqr) hne
  | case2 hx =>
    unfold ancestorWalk at h
    rw [if_neg hx] at h
    exact absurd h (by simp)
  | case3 a rest hx ih =>
    unfold ancestorWalk at h
    rw [if_neg hx] at h
    obtain ⟨hpre, hfoc, hmin⟩ := ih h
    refine ⟨pathIsPrefix_trans hpre (pathIsPrefix_dropLast _), hfoc, ?_⟩
    intro r hqr hrp hne
    rcases pathIsPrefix_dropLast_or hrp with rfl | hrd
    · exact Bool.not_eq_true _ ▸ (by simpa using hx)
    · exact hmin r hqr hrd hne

/-- When the ancestor walk exhausts the chain, no ancestor-or-self of the
start node is focusable. -/
theorem ancestorWalk_eq_none {root : DomTree} {p : List Nat}
    (h : ancestorWalk root p = none) :
    ∀ r, pathIsPrefix r p = true → isFocusableAt root (some r) = false := by
  induction p using ancestorWalk.induct root with
  | case1 x hx =>
    unfold ancestorWalk at h
    rw [if_pos hx] at h
    exact absurd h (by simp)
  | case2 hx =>
    intro r hr
    obtain rfl := pathIsPrefix_nil_right hr
    simpa using hx
  | case3 a rest hx ih =>
    unfold ancestorWalk at h
    rw [if_neg hx] at h
    intro r hr
    rcases pathIsPrefix_dropLast_or hr with rfl | hrd
    · simpa using hx
    · exact ih h r hrd

/-! Facts about the descendant search and attribute updates. -/

/-- Looking a node up along a concatenated path descends through the first
part, then the second. -/
theorem getNode_append : ∀ (t : DomTree) (p rel : List Nat),
    getNode t (p ++ rel) = (getNode t p).bind (fun c => getNode c rel)
  | t, [], rel => by simp [getNode]
  | DomTree.mk d cs, i :: p, rel => by
    simp only [List.cons_append, getNode]
    cases cs[i]? with
    | none => rfl
    | some c => exact getNode_append c p rel

/-- A successful pre-order forest search returns the path of a focusable
node of the forest: a child index (offset by the starting index `i`)
followed by a path inside that child. -/
theorem firstFocusableForest_spec : ∀ (ts : List DomTree) (i : Nat) {q : List Nat},
    firstFocusableForest ts i = some q →
    ∃ j rest c t, q = (i + j) :: rest ∧ ts[j]? = some c ∧
      getNode c rest = some t ∧ isFocusable t.data = true
  | [], _, _, h => by simp [firstFocusableForest] at h
  | DomTree.mk d cs :: rest0, i, q, h => by
    unfold firstFocusableForest at h
    by_cases hd : isFocusable d = true
    · rw [if_pos hd] at h
      obtain rfl : [i] = q := Option.some.inj h
      exact ⟨0, [], DomTree.mk d cs, DomTree.mk d cs, by simp, by simp, rfl, hd⟩
    · rw [if_neg hd] at h
      cases hcs : firstFocusableForest cs 0 with
      | some q0 =>
        rw [hcs] at h
        obtain rfl : i :: q0 = q := Option.some.inj h
        obtain ⟨j, rest, c, t, hq0, hget, hnode, hfoc⟩ :=
          firstFocusableForest_spec cs 0 hcs
        refine ⟨0, q0, DomTree.mk d cs, t, by simp, by simp, ?_, hfoc⟩
        rw [hq0]
        simp only [getNode, Nat.zero_add]
        rw [hget]
        exact hnode
      | none =>
        rw [hcs] at h
        obtain ⟨j, rst, c, t, hq, hget, hnode, hfoc⟩ :=
          firstFocusableForest_spec rest0 (i + 1) h
        refine ⟨j + 1, rst, c, t, ?_, ?_, hnode, hfoc⟩
        · rw [hq]; congr 1; omega
        · simpa using hget

/-- A successful descendant search returns a strict descendant of the start
node, and that descendant is focusable. -/
theorem findFocusableDescendantAt_spec {root : DomTree} {p q : List Nat}
    (h : findFocusableDescendantAt root (some p) = some q) :
    ∃ rel, rel ≠ [] ∧ q = p ++ rel ∧ isFocusableAt root (some q) = true := by
  unfold findFocusableDescendantAt at h
  dsimp only at h
  cases hg : getNode root p with
  | none => rw [hg] at h; simp at h
  | some t =>
    rw [hg] at h
    dsimp only at h
    cases hf : firstFocusableForest t.children 0 with
    | none => rw [hf] at h; simp at h
    | some rel =>
      rw [hf] at h
      simp only [Option.map_some'] at h
      obtain rfl : p ++ rel = q := Option.some.inj h
      obtain ⟨j, rest, c, tt, hrel, hget, hnode, hfoc⟩ := firstFocusableForest_spec _ _ hf
      have hq : getNode root (p ++ rel) = some tt := by
        rw [getNode_append, hg]
        simp only [Option.some_bind]
        rw [hrel]
        cases t with
        | mk d cs =>
          simp only [DomTree.children] at hget
          simp only [getNode, Nat.zero_add]
          rw [hget]
          exact hnode
      refine ⟨rel, ?_, rfl, by simp [isFocusableAt, hq, hfoc]⟩
      rw [hrel]
      simp

/-- After `setAttribute`, looking the same attribute up yields the new
value. -/
theorem lookupAttr_setAttrList : ∀ (attrs : List (String × String)) (k v : String),
    lookupAttr (setAttrList attrs k v) k = some v
  | [], k, v => by simp [setAttrList, lookupAttr]
  | (k0, v0) :: rest, k, v => by
    by_cases hk : k0 = k
    · simp [setAttrList, hk, lookupAttr]
    · simp [setAttrList, hk, lookupAttr, lookupAttr_setAttrList rest k v]

/-- An element becomes focusable once it is given a `tabIndex` attribute. -/
theorem isFocusable_setTabIndex (d : NodeData) :
    isFocusable (setAttrData d "tabIndex" "0") = true := by
  simp [isFocusable, setAttrData, lookupAttr_setAttrList]

/-- Updating an attribute at a valid path changes exactly that node's data,
keeping its children. -/
theorem getNode_setAttrTree : ∀ (root : DomTree) (p : List Nat) {t : DomTree}
    (k v : String), getNode root p = some t →
    getNode (setAttrTree root p k v) p =
      some (DomTree.mk (setAttrData t.data k v) t.children)
  | DomTree.mk d cs, [], t, k, v, h => by
    obtain rfl : DomTree.mk d cs = t := Option.some.inj h
    simp [setAttrTree, getNode, DomTree.data, DomTree.children]
  | DomTree.mk d cs, i :: p, t, k, v, h => by
    simp only [getNode] at h
    cases hc : cs[i]? with
    | none => rw [hc] at h; exact absurd h (by simp)
    | some c =>
      rw [hc] at h
      have hlen : i < cs.length := by
        by_contra hlt
        rw [List.getElem?_eq_none (by omega)] at hc
        exact absurd hc (by simp)
      simp only [setAttrTree, hc, getNode]
      rw [List.getElem?_set_self (by omega)]
      exact getNode_setAttrTree c p k v h

/-- Suspender calls and focus calls can only come from the focus block: the
other blocks emit only blur, attribute and selection actions. -/
theorem focusAction_mem_syncTrace {st : DomState} {tp : Option (List Nat)} {fd : Bool}
    {a : Action}
    (ha : a = Action.enterSuspendEvents ∨ a = Action.exitSuspendEvents ∨
      ∃ p, a = Action.focus p)
    (h : a ∈ (setFocus st tp fd).syncTrace) : a ∈ (setFocus st tp fd).focusPart := by
  simp only [SetFocusResult.syncTrace, List.append_assoc, List.mem_append] at h
  rcases h with h | h | h | h
  · rcases mem_initialBlurActs (a := a) h with ⟨p, rfl⟩
    rcases ha with h1 | h1 | ⟨p1, h1⟩ <;> simp at h1
  · rcases mem_videoFixOf (a := a) h with ⟨p, rfl⟩
    rcases ha with h1 | h1 | ⟨p1, h1⟩ <;> simp at h1
  · exact h
  · rcases mem_selRestoreStep (a := a) h with rfl | ⟨r, rfl⟩ | ⟨p, rfl⟩ <;>
      rcases ha with h1 | h1 | ⟨p1, h1⟩ <;> simp at h1

/-- When the resolved node is not a text input (in particular when it is
null), the selection-restore block restores the captured range. -/
theorem selRestoreStep_notText {root : DomTree} {res : Option (List Nat)}
    {rg : Option SelRange} {cur : List SelRange}
    (h : isInputTypeTextAt root res = false) :
    selRestoreStep root res rg cur = restoreRange rg cur := by
  unfold selRestoreStep
  cases res with
  | none => rfl
  | some p =>
    cases hg : getNode root p with
    | none => simp [hg]
    | some t =>
      have ht : t.data.isTextInput = false := by simpa [isInputTypeTextAt, hg] using h
      simp [hg, ht]

/-! The claims. -/

/-- C1 (amended): when events are suspended at call time and the resolved
target is focusable, not an iframe, and excluded by the suspension rule (a
video element or `type="time"`), `enterSuspendEvents` is indeed never invoked
(neither synchronously nor in the deferred callback) — but the call is not a
pass-through: the deferred focus callback still invokes `exitSuspendEvents`
right after the focus call, so the suspension state is not left untouched. -/
theorem setFocus_suspendedExcluded_exitsSuspension {st : DomState}
    {tp : Option (List Nat)} {fd : Bool} {p : List Nat} {t : DomTree}
    (hs : st.suspended = true)
    (hres : (setFocus st tp fd).resolved = some p)
    (ht : getNode (setFocus st tp fd).finalRoot p = some t)
    (hf : isFocusable t.data = true)
    (hni : t.data.tag ≠ "IFRAME")
    (hexc : t.data.isVideo = true ∨ lookupAttr t.data.attrs "type" = some "time") :
    Action.enterSuspendEvents ∉ (setFocus st tp fd).syncTrace
  ∧ Action.enterSuspendEvents ∉ (setFocus st tp fd).deferred
  ∧ (setFocus st tp fd).deferred = [Action.focus p, Action.exitSuspendEvents] := by
  have hse : shouldEnterSuspendEvents_ t.data = false := by
    rcases hexc with hv | htm
    · simp [shouldEnterSuspendEvents_, hv]
    · by_cases hv : t.data.isVideo = true <;> simp [shouldEnterSuspendEvents_, hv, htm]
  have hfp : (setFocus st tp fd).focusPart = [] := by
    rw [setFocus_focusPart, hres, hs, focusStep_suspended _ ht hf hni]
    simp [hse]
  have hdef : (setFocus st tp fd).deferred = [Action.focus p, Action.exitSuspendEvents] := by
    rw [setFocus_deferred, hres, hs, focusStep_suspended _ ht hf hni]
  refine ⟨?_, ?_, hdef⟩
  · intro hmem
    have hin := focusAction_mem_syncTrace (Or.inl rfl) hmem
    rw [hfp] at hin
    simp at hin
  · rw [hdef]
    simp

/-- C2: when events are suspended at call time and the resolved target is
focusable, not an iframe, and not excluded (neither a video element nor
`type="time"`), `enterSuspendEvents` is emitted synchronously (it is the
whole focus block, which precedes the deferral), and the deferred callback
performs the focus call immediately followed by `exitSuspendEvents`. -/
theorem setFocus_suspendedNonExcluded_togglesSuspension {st : DomState}
    {tp : Option (List Nat)} {fd : Bool} {p : List Nat} {t : DomTree}
    (hs : st.suspended = true)
    (hres : (setFocus st tp fd).resolved = some p)
    (ht : getNode (setFocus st tp fd).finalRoot p = some t)
    (hf : isFocusable t.data = true)
    (hni : t.data.tag ≠ "IFRAME")
    (hnv : t.data.isVideo = false)
    (hnt : lookupAttr t.data.attrs "type" ≠ some "time") :
    (setFocus st tp fd).focusPart = [Action.enterSuspendEvents]
  ∧ Action.enterSuspendEvents ∈ (setFocus st tp fd).syncTrace
  ∧ (setFocus st tp fd).deferred = [Action.focus p, Action.exitSuspendEvents] := by
  have hse : shouldEnterSuspendEvents_ t.data = true := by
    simp [shouldEnterSuspendEvents_, hnv, hnt]
  have hfp : (setFocus st tp fd).focusPart = [Action.enterSuspendEvents] := by
    rw [setFocus_focusPart, hres, hs, focusStep_suspended _ ht hf hni]
    simp [hse]
  refine ⟨hfp, ?_, ?_⟩
  · simp [SetFocusResult.syncTrace, hfp]
  · rw [setFocus_deferred, hres, hs, focusStep_suspended _ ht hf hni]

/-- C3: when an element holds focus and the target node is not a
descendant-or-self of it, that element is blurred first — the blur is the
very first action of the synchronous trace, before the target is resolved
and before any focus is scheduled; when the target is a descendant, the
initial-blur block emits nothing. -/
theorem setFocus_initialBlur_iff_notDescendant {st : DomState}
    {tp : Option (List Nat)} (fd : Bool) {ap : List Nat}
    (ha : st.activePath = some ap) :
    (isDescendantOfNode tp ap = false →
        (setFocus st tp fd).initialBlur = [Action.blur ap]
      ∧ (setFocus st tp fd).syncTrace.head? = some (Action.blur ap))
  ∧ (isDescendantOfNode tp ap = true → (setFocus st tp fd).initialBlur = []) := by
  constructor
  · intro hnd
    have hib : (setFocus st tp fd).initialBlur = [Action.blur ap] := by
      rw [setFocus_initialBlur, ha]
      simp [initialBlurActs, hnd]
    exact ⟨hib, by simp [SetFocusResult.syncTrace, hib]⟩
  · intro hd
    rw [setFocus_initialBlur, ha]
    simp [initialBlurActs, hd]

/-- C4: with `focusDescendants = true` and a non-focusable target that has a
focusable descendant, the resolved target is the result of the pre-order
descendant search: a strict descendant of the target (so never an ancestor
of it), and focusable. -/
theorem setFocus_focusDescendants_firstPreorder {st : DomState} {p q : List Nat}
    (hnf : isFocusableAt (setFocus st (some p) true).finalRoot (some p) = false)
    (hd : findFocusableDescendantAt (setFocus st (some p) true).finalRoot (some p) =
      some q) :
    (setFocus st (some p) true).resolved = some q
  ∧ pathIsPrefix p q = true
  ∧ q ≠ p
  ∧ pathIsPrefix q p = false
  ∧ isFocusableAt (setFocus st (some p) true).finalRoot (some q) = true := by
  obtain ⟨rel, hne, rfl, hfoc⟩ := findFocusableDescendantAt_spec hd
  refine ⟨?_, pathIsPrefix_append p rel, ?_, pathIsPrefix_append_ne p hne, hfoc⟩
  · rw [setFocus_resolved]
    simp [resolveTarget, hnf, hd]
  · intro hcontra
    apply hne
    have hlen := congrArg List.length hcontra
    simp at hlen
    exact hlen

/-- C5: with `focusDescendants = true`, a non-focusable target and no
focusable descendant, the ancestor chain is never consulted: the resolved
target stays the (non-focusable) target itself, no focus call is made or
scheduled, and the call takes the no-focusable-found blur branch — even when
the target has a focusable ancestor. -/
theorem setFocus_noFocusableDescendant_keepsTarget {st : DomState} {p : List Nat}
    (hnf : isFocusableAt (setFocus st (some p) true).finalRoot (some p) = false)
    (hd : findFocusableDescendantAt (setFocus st (some p) true).finalRoot (some p) =
      none) :
    (setFocus st (some p) true).resolved = some p
  ∧ isFocusableAt (setFocus st (some p) true).finalRoot
      (setFocus st (some p) true).resolved = false
  ∧ (setFocus st (some p) true).deferred = []
  ∧ (∀ q, Action.focus q ∉ (setFocus st (some p) true).syncTrace)
  ∧ (setFocus st (some p) true).focusPart =
      (blurStep (activeAfterBlur st.activePath (some p))
        (setFocus st (some p) true).finalRoot).1 := by
  have hres : (setFocus st (some p) true).resolved = some p := by
    rw [setFocus_resolved]
    simp [resolveTarget, hnf, hd]
  have hnf2 : isFocusableAt (setFocus st (some p) true).finalRoot
      (setFocus st (some p) true).resolved = false := by
    rw [hres]
    exact hnf
  have hstep := @focusStep_notFocusable st.suspended
      (activeAfterBlur st.activePath (some p)) _ _ hnf2
  have hfp : (setFocus st (some p) true).focusPart =
      (blurStep (activeAfterBlur st.activePath (some p))
        (setFocus st (some p) true).finalRoot).1 := by
    rw [setFocus_focusPart, hstep]
  refine ⟨hres, hnf2, by rw [setFocus_deferred, hstep], ?_, hfp⟩
  intro q hmem
  have hin := focusAction_mem_syncTrace (Or.inr (Or.inr ⟨q, rfl⟩)) hmem
  rw [hfp] at hin
  rcases mem_blurStep hin with ⟨p1, hp1⟩
  simp at hp1

/-- C6: when the resolved target is a focusable iframe, the focus block emits
nothing and schedules nothing: no focus call anywhere in the synchronous
trace or the deferred callback, and no suspension toggling. -/
theorem setFocus_iframe_noFocusNoSuspend {st : DomState} {tp : Option (List Nat)}
    {fd : Bool} {p : List Nat} {t : DomTree}
    (hres : (setFocus st tp fd).resolved = some p)
    (ht : getNode (setFocus st tp fd).finalRoot p = some t)
    (hf : isFocusable t.data = true)
    (hifr : t.data.tag = "IFRAME") :
    (setFocus st tp fd).focusPart = []
  ∧ (setFocus st tp fd).deferred = []
  ∧ (∀ q, Action.focus q ∉ (setFocus st tp fd).syncTrace)
  ∧ Action.enterSuspendEvents ∉ (setFocus st tp fd).syncTrace
  ∧ Action.exitSuspendEvents ∉ (setFocus st tp fd).syncTrace := by
  have hfp : (setFocus st tp fd).focusPart = [] := by
    rw [setFocus_focusPart, hres, focusStep_iframe st.suspended _ ht hf hifr]
  have hdef : (setFocus st tp fd).deferred = [] := by
    rw [setFocus_deferred, hres, focusStep_iframe st.suspended _ ht hf hifr]
  refine ⟨hfp, hdef, ?_, ?_, ?_⟩
  · intro q hmem
    have hin := focusAction_mem_syncTrace (Or.inr (Or.inr ⟨q, rfl⟩)) hmem
    rw [hfp] at hin
    simp at hin
  · intro hmem
    have hin := focusAction_mem_syncTrace (Or.inl rfl) hmem
    rw [hfp] at hin
    simp at hin
  · intro hmem
    have hin := focusAction_mem_syncTrace (Or.inr (Or.inl rfl)) hmem
    rw [hfp] at hin
    simp at hin

/-- C7: when no focusable node is resolved (including a null target or an
exhausted ancestor walk) the call still produces a well-defined result (the
embedding is a total function), schedules nothing, makes no focus call, and
the focus block blurs the element that holds focus at that point exactly when
there is one and its tag is not `BODY`. -/
theorem setFocus_noFocusable_blurFallback {st : DomState} {tp : Option (List Nat)}
    {fd : Bool}
    (hnf : isFocusableAt (setFocus st tp fd).finalRoot
      (setFocus st tp fd).resolved = false) :
    (setFocus st tp fd).deferred = []
  ∧ (∀ q, Action.focus q ∉ (setFocus st tp fd).syncTrace)
  ∧ (∀ ap, activeAfterBlur st.activePath tp = some ap →
        tagAt (setFocus st tp fd).finalRoot ap ≠ some "BODY" →
        (setFocus st tp fd).focusPart = [Action.blur ap])
  ∧ (∀ ap, activeAfterBlur st.activePath tp = some ap →
        tagAt (setFocus st tp fd).finalRoot ap = some "BODY" →
        (setFocus st tp fd).focusPart = [])
  ∧ (activeAfterBlur st.activePath tp = none → (setFocus st tp fd).focusPart = []) := by
  have hstep := @focusStep_notFocusable st.suspended
      (activeAfterBlur st.activePath tp) _ _ hnf
  have hfp : (setFocus st tp fd).focusPart =
      (blurStep (activeAfterBlur st.activePath tp) (setFocus st tp fd).finalRoot).1 := by
    rw [setFocus_focusPart, hstep]
  have hdef : (setFocus st tp fd).deferred = [] := by
    rw [setFocus_deferred, hstep]
  refine ⟨hdef, ?_, ?_, ?_, ?_⟩
  · intro q hmem
    have hin := focusAction_mem_syncTrace (Or.inr (Or.inr ⟨q, rfl⟩)) hmem
    rw [hfp] at hin
    rcases mem_blurStep hin with ⟨p1, hp1⟩
    simp at hp1
  · intro ap hap hbody
    rw [hfp, hap]
    simp [blurStep, hbody]
  · intro ap hap hbody
    rw [hfp, hap]
    simp [blurStep, hbody]
  · intro hap
    rw [hfp, hap]
    simp [blurStep]

/-- C8: when a selection range was captured at call time, a non-text-input
resolved target (including no target at all) makes the synchronous part end
by clearing all ranges and re-adding the captured range, so the final
selection is exactly that range; a text-input resolved target instead has
all its text selected, and the captured range is not restored. -/
theorem setFocus_selectionRestore {st : DomState} {tp : Option (List Nat)}
    {fd : Bool} {r0 : SelRange}
    (hr : st.sel.head? = some r0) :
    (isInputTypeTextAt (setFocus st tp fd).finalRoot
        (setFocus st tp fd).resolved = false →
        (setFocus st tp fd).selRestore = [Action.removeAllRanges, Action.addRange r0]
      ∧ (setFocus st tp fd).finalSel = SelState.ranges [r0])
  ∧ (∀ p t, (setFocus st tp fd).resolved = some p →
        getNode (setFocus st tp fd).finalRoot p = some t →
        t.data.isTextInput = true →
        (setFocus st tp fd).selRestore = [Action.selectAllText p]
      ∧ (setFocus st tp fd).finalSel = SelState.allTextOf p
      ∧ Action.addRange r0 ∉ (setFocus st tp fd).selRestore) := by
  constructor
  · intro hnt
    have hsr := @selRestoreStep_notText _ _ st.sel.head? st.sel hnt
    constructor
    · rw [setFocus_selRestore, hsr, hr]
      simp [restoreRange]
    · rw [setFocus_finalSel, hsr, hr]
      simp [restoreRange]
  · intro p t hres hg htext
    have hsr : selRestoreStep (setFocus st tp fd).finalRoot (setFocus st tp fd).resolved
        st.sel.head? st.sel = ([Action.selectAllText p], SelState.allTextOf p) := by
      rw [hres]
      simp [selRestoreStep, hg, htext]
    refine ⟨?_, ?_, ?_⟩
    · rw [setFocus_selRestore, hsr]
    · rw [setFocus_finalSel, hsr]
    · rw [setFocus_selRestore, hsr]
      simp

/-- C9: when `focusDescendants` is false, or the target is already focusable
(so the descendant branch is not taken), resolution is the ancestor walk: it
stops at the first focusable node up the parent chain (everything strictly
below it on the chain is non-focusable), and yields null when the chain is
exhausted without finding one (then no ancestor-or-self is focusable).  The
walk is a total function of the (finite, acyclic) path, so it terminates. -/
theorem setFocus_ancestorWalkResolution {st : DomState} {tp : Option (List Nat)}
    {fd : Bool}
    (hbr : fd = false ∨ isFocusableAt (setFocus st tp fd).finalRoot tp = true) :
    (setFocus st tp fd).resolved = resolveByAncestors (setFocus st tp fd).finalRoot tp
  ∧ (∀ p0 q, tp = some p0 →
      ancestorWalk (setFocus st tp fd).finalRoot p0 = some q →
        pathIsPrefix q p0 = true
      ∧ isFocusableAt (setFocus st tp fd).finalRoot (some q) = true
      ∧ ∀ r, pathIsPrefix q r = true → pathIsPrefix r p0 = true → r ≠ q →
          isFocusableAt (setFocus st tp fd).finalRoot (some r) = false)
  ∧ (∀ p0, tp = some p0 →
      ancestorWalk (setFocus st tp fd).finalRoot p0 = none →
        ∀ r, pathIsPrefix r p0 = true →
          isFocusableAt (setFocus st tp fd).finalRoot (some r) = false) := by
  refine ⟨?_, ?_, ?_⟩
  · rw [setFocus_resolved]
    rcases hbr with rfl | hf
    · simp [resolveTarget]
    · simp [resolveTarget, hf]
  · intro p0 q hp0 hw
    exact ancestorWalk_eq_some hw
  · intro p0 hp0 hw
    exact ancestorWalk_eq_none hw

/-- C10: a video target that is not focusable is given `tabIndex = 0` before
resolution — the video-fix block emits the attribute write, the tree in force
for the rest of the call is the updated one (on which the target is now
focusable), and resolution runs against it; a video target that is already
focusable leaves the tree untouched. -/
theorem setFocus_videoTabIndex {st : DomState} {fd : Bool} {p : List Nat}
    {t : DomTree}
    (hg : getNode st.root p = some t) (hv : t.data.isVideo = true) :
    (isFocusable t.data = false →
        (setFocus st (some p) fd).videoFix = [Action.setAttr p "tabIndex" "0"]
      ∧ (setFocus st (some p) fd).finalRoot = setAttrTree st.root p "tabIndex" "0"
      ∧ isFocusableAt (setFocus st (some p) fd).finalRoot (some p) = true
      ∧ (setFocus st (some p) fd).resolved =
          resolveTarget (setAttrTree st.root p "tabIndex" "0") (some p) fd)
  ∧ (isFocusable t.data = true →
        (setFocus st (some p) fd).videoFix = []
      ∧ (setFocus st (some p) fd).finalRoot = st.root) := by
  constructor
  · intro hnf
    have hfix : videoFixOf st.root (some p) =
        ([Action.setAttr p "tabIndex" "0"], setAttrTree st.root p "tabIndex" "0") := by
      simp [videoFixOf, hg, hv, hnf]
    have hroot : (setFocus st (some p) fd).finalRoot =
        setAttrTree st.root p "tabIndex" "0" := by
      rw [setFocus_finalRoot, hfix]
    refine ⟨by rw [setFocus_videoFix, hfix], hroot, ?_, ?_⟩
    · rw [hroot]
      have hup := getNode_setAttrTree st.root p "tabIndex" "0" hg
      simp [isFocusableAt, hup, isFocusable_setTabIndex, DomTree.data]
    · rw [setFocus_resolved, hroot]
  · intro hfoc
    have hfix : videoFixOf st.root (some p) = ([], st.root) := by
      simp [videoFixOf, hg, hfoc]
    exact ⟨by rw [setFocus_videoFix, hfix], by rw [setFocus_finalRoot, hfix]⟩

/-- C1 counterexample: in the sample document with events suspended, focusing
the video at `[0]` resolves to the video itself (a non-iframe video element),
yet the deferred focus callback does invoke `exitSuspendEvents` — the claimed
pass-through does not hold. -/
theorem setFocus_suspendedExcluded_counterexample :
    exStSusp.suspended = true
  ∧ (setFocus exStSusp (some [0]) false).resolved = some [0]
  ∧ (getNode (setFocus exStSusp (some [0]) false).finalRoot [0]).map
      (fun t => t.data.isVideo) = some true
  ∧ (getNode (setFocus exStSusp (some [0]) false).finalRoot [0]).map
      (fun t => t.data.tag) = some "VIDEO"
  ∧ Action.exitSuspendEvents ∈ (setFocus exStSusp (some [0]) false).deferred := by
  refine ⟨rfl, ?_, rfl, rfl, ?_⟩
  · simp [setFocus, resolveTarget, resolveByAncestors, ancestorWalk, videoFixOf, getNode,
      isFocusableAt, isFocusable, lookupAttr, setAttrTree, setAttrData, setAttrList,
      exStSusp, exRoot, exVideoData, plainData, DomTree.data, DomTree.children]
  · simp [setFocus, resolveTarget, resolveByAncestors, ancestorWalk, videoFixOf, getNode,
      isFocusableAt, isFocusable, lookupAttr, setAttrTree, setAttrData, setAttrList,
      focusStep, shouldEnterSuspendEvents_, activeAfterBlur, blurStep,
      exStSusp, exRoot, exVideoData, plainData, DomTree.data, DomTree.children]

/-- C1 witness: the amended statement at the suspended video scenario. -/
theorem setFocus_suspendedExcluded_witness :
    exStSusp.suspended = true
  ∧ Action.enterSuspendEvents ∉ (setFocus exStSusp (some [0]) false).syncTrace
  ∧ Action.enterSuspendEvents ∉ (setFocus exStSusp (some [0]) false).deferred
  ∧ (setFocus exStSusp (some [0]) false).deferred =
      [Action.focus [0], Action.exitSuspendEvents] := by
  have h := @setFocus_suspendedExcluded_exitsSuspension exStSusp (some [0]) false [0]
    (DomTree.mk (setAttrData exVideoData "tabIndex" "0") [])
    rfl
    (by simp [setFocus, resolveTarget, resolveByAncestors, ancestorWalk, videoFixOf, getNode,
      isFocusableAt, isFocusable, lookupAttr, setAttrTree, setAttrData, setAttrList,
      exStSusp, exRoot, exVideoData, plainData, DomTree.data, DomTree.children])
    rfl rfl (by decide) (Or.inl rfl)
  exact ⟨rfl, h.1, h.2.1, h.2.2⟩

/-- C2 witness: suspended focus of the button at `[1, 1]` enters suspension
synchronously and schedules focus-then-exit. -/
theorem setFocus_suspendedNonExcluded_witness :
    exStSusp.suspended = true
  ∧ (setFocus exStSusp (some [1, 1]) false).focusPart = [Action.enterSuspendEvents]
  ∧ Action.enterSuspendEvents ∈ (setFocus exStSusp (some [1, 1]) false).syncTrace
  ∧ (setFocus exStSusp (some [1, 1]) false).deferred =
      [Action.focus [1, 1], Action.exitSuspendEvents] := by
  have h := @setFocus_suspendedNonExcluded_togglesSuspension exStSusp (some [1, 1]) false
    [1, 1] (DomTree.mk exButtonData [])
    rfl
    (by simp [setFocus, resolveTarget, resolveByAncestors, ancestorWalk, videoFixOf, getNode,
      isFocusableAt, isFocusable, lookupAttr, exStSusp, exRoot, exVideoData, exButtonData,
      plainData, DomTree.data, DomTree.children])
    rfl rfl (by decide) rfl (by decide)
  exact ⟨rfl, h.1, h.2.1, h.2.2⟩

/-- C3 witness: with the div at `[1]` focused, focusing the video at `[0]`
(not a descendant of it) blurs the div first. -/
theorem setFocus_initialBlur_witness :
    exStActive.activePath = some [1]
  ∧ isDescendantOfNode (some [0]) [1] = false
  ∧ (setFocus exStActive (some [0]) false).initialBlur = [Action.blur [1]]
  ∧ (setFocus exStActive (some [0]) false).syncTrace.head? = some (Action.blur [1]) := by
  have h := (@setFocus_initialBlur_iff_notDescendant exStActive (some [0]) false [1] rfl).1
    (by decide)
  exact ⟨rfl, by decide, h.1, h.2⟩

/-- C4 witness: focusing the non-focusable div at `[1]` with descendants
enabled resolves to the button at `[1, 1]`, its first focusable pre-order
descendant. -/
theorem setFocus_focusDescendants_witness :
    isFocusableAt (setFocus exStBase (some [1]) true).finalRoot (some [1]) = false
  ∧ findFocusableDescendantAt (setFocus exStBase (some [1]) true).finalRoot (some [1]) =
      some [1, 1]
  ∧ (setFocus exStBase (some [1]) true).resolved = some [1, 1]
  ∧ pathIsPrefix [1] [1, 1] = true
  ∧ pathIsPrefix [1, 1] [1] = false
  ∧ isFocusableAt (setFocus exStBase (some [1]) true).finalRoot (some [1, 1]) = true := by
  have hd : findFocusableDescendantAt (setFocus exStBase (some [1]) true).finalRoot
      (some [1]) = some [1, 1] := by
    simp [setFocus, videoFixOf, findFocusableDescendantAt, firstFocusableForest, getNode,
      isFocusable, lookupAttr, exStBase, exRoot, exVideoData, exButtonData, plainData,
      DomTree.data, DomTree.children]
  have h := @setFocus_focusDescendants_firstPreorder exStBase [1] [1, 1] (by decide) hd
  exact ⟨by decide, hd, h.1, h.2.1, h.2.2.2.1, h.2.2.2.2⟩

/-- C5 witness: the plain div at `[4, 0]` has no focusable descendant but a
focusable ancestor at `[4]`; with descendants enabled the resolved target
still stays `[4, 0]` and nothing is scheduled. -/
theorem setFocus_noFocusableDescendant_witness :
    isFocusableAt (setFocus exStBase (some [4, 0]) true).finalRoot (some [4, 0]) = false
  ∧ findFocusableDescendantAt (setFocus exStBase (some [4, 0]) true).finalRoot
      (some [4, 0]) = none
  ∧ isFocusableAt (setFocus exStBase (some [4, 0]) true).finalRoot (some [4]) = true
  ∧ (setFocus exStBase (some [4, 0]) true).resolved = some [4, 0]
  ∧ (setFocus exStBase (some [4, 0]) true).deferred = [] := by
  have hd : findFocusableDescendantAt (setFocus exStBase (some [4, 0]) true).finalRoot
      (some [4, 0]) = none := by
    simp [setFocus, videoFixOf, findFocusableDescendantAt, firstFocusableForest, getNode,
      isFocusable, lookupAttr, exStBase, exRoot, exVideoData, exButtonData, exIframeData,
      exInputData, exTimeData, exTabDivData, plainData, DomTree.data, DomTree.children]
  have h := @setFocus_noFocusableDescendant_keepsTarget exStBase [4, 0] (by decide) hd
  exact ⟨by decide, hd, by decide, h.1, h.2.2.1⟩

/-- C6 witness: focusing the iframe at `[2]` resolves to it but emits and
schedules nothing. -/
theorem setFocus_iframe_witness :
    (setFocus exStBase (some [2]) false).resolved = some [2]
  ∧ (setFocus exStBase (some [2]) false).focusPart = []
  ∧ (setFocus exStBase (some [2]) false).deferred = [] := by
  have hres : (setFocus exStBase (some [2]) false).resolved = some [2] := by
    simp [setFocus, resolveTarget, resolveByAncestors, ancestorWalk, videoFixOf, getNode,
      isFocusableAt, isFocusable, lookupAttr, exStBase, exRoot, exVideoData, exIframeData,
      plainData, DomTree.data, DomTree.children]
  have h := @setFocus_iframe_noFocusNoSuspend exStBase (some [2]) false [2]
    (DomTree.mk exIframeData []) hres rfl rfl rfl
  exact ⟨hres, h.1, h.2.1⟩

/-- C7 witness: a null target with the div at `[1]` focused; the initial blur
returns focus to the body, so the fallback branch blurs nothing, and the call
completes with nothing scheduled. -/
theorem setFocus_noFocusable_witness :
    isFocusableAt (setFocus exStActive none false).finalRoot
      (setFocus exStActive none false).resolved = false
  ∧ activeAfterBlur exStActive.activePath none = some []
  ∧ tagAt (setFocus exStActive none false).finalRoot [] = some "BODY"
  ∧ (setFocus exStActive none false).deferred = []
  ∧ (setFocus exStActive none false).focusPart = [] := by
  have h := @setFocus_noFocusable_blurFallback exStActive none false (by decide)
  exact ⟨by decide, by decide, rfl, h.1, h.2.2.2.1 [] (by decide) rfl⟩

/-- C8 witness: with a captured range and a non-text-input resolution, the
selection is cleared and the range re-added. -/
theorem setFocus_selectionRestore_witness :
    exStSel.sel.head? = some 5
  ∧ isInputTypeTextAt (setFocus exStSel (some [1]) false).finalRoot
      (setFocus exStSel (some [1]) false).resolved = false
  ∧ (setFocus exStSel (some [1]) false).selRestore =
      [Action.removeAllRanges, Action.addRange 5]
  ∧ (setFocus exStSel (some [1]) false).finalSel = SelState.ranges [5] := by
  have hnt : isInputTypeTextAt (setFocus exStSel (some [1]) false).finalRoot
      (setFocus exStSel (some [1]) false).resolved = false := by
    simp [setFocus, resolveTarget, resolveByAncestors, ancestorWalk, videoFixOf, getNode,
      isFocusableAt, isFocusable, isInputTypeTextAt, lookupAttr, exStSel, exRoot,
      exVideoData, plainData, DomTree.data, DomTree.children]
  have h := (@setFocus_selectionRestore exStSel (some [1]) false 5 rfl).1 hnt
  exact ⟨rfl, hnt, h.1, h.2⟩

/-- C9 witness: with descendants disabled, focusing the button at `[1, 1]`
resolves through the ancestor walk, which stops immediately at the focusable
button. -/
theorem setFocus_ancestorWalk_witness :
    (setFocus exStBase (some [1, 1]) false).resolved =
      resolveByAncestors (setFocus exStBase (some [1, 1]) false).finalRoot (some [1, 1])
  ∧ ancestorWalk (setFocus exStBase (some [1, 1]) false).finalRoot [1, 1] = some [1, 1]
  ∧ pathIsPrefix [1, 1] [1, 1] = true
  ∧ isFocusableAt (setFocus exStBase (some [1, 1]) false).finalRoot (some [1, 1]) = true := by
  have hw : ancestorWalk (setFocus exStBase (some [1, 1]) false).finalRoot [1, 1] =
      some [1, 1] := by
    simp [setFocus, videoFixOf, ancestorWalk, getNode, isFocusableAt, isFocusable,
      lookupAttr, exStBase, exRoot, exVideoData, exButtonData, plainData,
      DomTree.data, DomTree.children]
  have h := @setFocus_ancestorWalkResolution exStBase (some [1, 1]) false (Or.inl rfl)
  have h2 := h.2.1 [1, 1] [1, 1] rfl hw
  exact ⟨h.1, hw, h2.1, h2.2.1⟩

/-- C10 witness: the video at `[0]` lacks a tab index, so it is given
`tabIndex = 0` and becomes focusable before resolution. -/
theorem setFocus_videoTabIndex_witness :
    getNode exStBase.root [0] = some (DomTree.mk exVideoData [])
  ∧ (DomTree.mk exVideoData []).data.isVideo = true
  ∧ isFocusable (DomTree.mk exVideoData []).data = false
  ∧ (setFocus exStBase (some [0]) false).videoFix = [Action.setAttr [0] "tabIndex" "0"]
  ∧ (setFocus exStBase (some [0]) false).finalRoot =
      setAttrTree exStBase.root [0] "tabIndex" "0"
  ∧ isFocusableAt (setFocus exStBase (some [0]) false).finalRoot (some [0]) = true := by
  have h := (@setFocus_videoTabIndex exStBase false [0] (DomTree.mk exVideoData [])
    rfl rfl).1 rfl
  exact ⟨rfl, rfl, rfl, h.1, h.2.1, h.2.2.1⟩

end Focuser
